import Mathlib

/-!
Verification of the node-influx host-pool core: backoff strategies, the
Host failure/success wrapper (src/host.ts), the response-parsing callback
and constructor host seeding (the InfluxDB client source), and the Pool
selection/dispatch state machine.  The Pool and BackoffStrategy sources are
not part of the provided source tree, so those two components are modelled
from the specification; everything else is translated directly from the
source files.
-/

namespace NodeInflux

/-- The capability a backoff strategy exposes to a Host: compute the next
quarantine delay while advancing internal state, and reset to baseline.
Stateful TypeScript objects become explicit state passing: `next` returns
the delay together with the advanced state. -/
structure BackoffOps (B : Type) where
  next : B → Nat × B
  reset : B → B

/-- Modelled from the spec: the parameters of the exponential backoff
strategy (the BackoffStrategy source is not in the provided tree).
Delays are naturals (milliseconds). -/
structure ExponentialOptions where
  baseDelay : Nat
  multiplier : Nat
  maxDelay : Nat
  deriving Repr, DecidableEq

/-- Modelled from the spec: the exponential strategy state, a strategy
parameter record plus an attempt counter. -/
structure ExponentialState where
  opts : ExponentialOptions
  attempt : Nat
  deriving Repr, DecidableEq

/-- Modelled from the spec: the freshly-constructed exponential strategy
has attempt counter zero. -/
def ExponentialState.initial (o : ExponentialOptions) : ExponentialState :=
  { opts := o, attempt := 0 }

/-- Modelled from the spec: the delay the exponential strategy returns in
its current state, computed as the minimum of base * multiplier ^ attempt
and the configured maximum. -/
def ExponentialState.delay (s : ExponentialState) : Nat :=
  min (s.opts.baseDelay * s.opts.multiplier ^ s.attempt) s.opts.maxDelay

/-- Modelled from the spec: `next()` returns the current delay and
increments the attempt counter. -/
def ExponentialState.next (s : ExponentialState) : Nat × ExponentialState :=
  (s.delay, { s with attempt := s.attempt + 1 })

/-- Modelled from the spec: `reset()` sets the attempt counter back to
zero, keeping the strategy parameters. -/
def ExponentialState.reset (s : ExponentialState) : ExponentialState :=
  { s with attempt := 0 }

/-- The exponential strategy packaged as the backoff capability. -/
def exponentialOps : BackoffOps ExponentialState :=
  { next := ExponentialState.next, reset := ExponentialState.reset }

/-- The delay returned by the k-th `next()` call (0-indexed) in a run of
consecutive `next()` calls starting from state `s` with no intervening
reset: the k-th call sees attempt counter `s.attempt + k`. -/
def ExponentialState.nthDelay (s : ExponentialState) (k : Nat) : Nat :=
  ExponentialState.delay { s with attempt := s.attempt + k }

/-- From src/host.ts: a Host owns a url (public, set at construction) and
a backoff strategy instance (private).  The strategy type is a parameter,
matching the `BackoffStrategy` interface the class is written against. -/
structure Host (B : Type) where
  url : String
  backoff : B

/-- From src/host.ts, `fail()`: returns `this.backoff.next()`, i.e. the
removal delay, advancing the backoff state.  The mutation of the private
field becomes returning the updated Host. -/
def Host.fail {B : Type} (ops : BackoffOps B) (h : Host B) : Nat × Host B :=
  let r := ops.next h.backoff
  (r.1, { h with backoff := r.2 })

/-- From src/host.ts, `success()`: calls `this.backoff.reset()`. -/
def Host.success {B : Type} (ops : BackoffOps B) (h : Host B) : Host B :=
  { h with backoff := ops.reset h.backoff }

/-- Errors a dispatch can surface to the caller. -/
inductive DispatchError
  | noHostsAvailable
  | allHostsFailed
  deriving Repr, DecidableEq

/-- Modelled from the spec: the Pool (its source file is not in the
provided tree) keeps two disjoint collections of hosts — `available`,
ordered for round-robin fairness, and `disabled`, each host tagged with
its scheduled re-admission time — plus a round-robin selection cursor. -/
structure Pool (B : Type) where
  available : List (Host B)
  disabled : List (Host B × Nat)
  cursor : Nat

/-- Modelled from the spec: one pass of the dispatch algorithm with a
remaining-attempts counter.  Step 1: if `available` is empty, fail with
NoHostsAvailableError.  Step 2: select the host at the cursor position
modulo the current size of `available` and advance the cursor.  Steps 3-5:
the transport outcome for a url is abstracted as a boolean oracle; on
success the host's `success()` runs and the result is returned, on failure
the host's `fail()` delay schedules its re-admission at `now + delay`, the
host moves to `disabled`, and the dispatch retries with one fewer
remaining attempt.  Step 6: with no attempts left, AllHostsFailedError.
The reclaim the spec mandates before step 1 is performed by `dispatch`
before entering this loop. -/
def Pool.dispatchAux {B : Type} (ops : BackoffOps B) (transport : String → Bool) (now : Nat) :
    Nat → Pool B → Except DispatchError (String × Pool B)
  | fuel, p =>
    match ha : p.available with
    | [] => .error .noHostsAvailable
    | x :: xs =>
      let n := p.available.length
      have hn : 0 < n := by rw [show n = p.available.length from rfl, ha]; exact Nat.succ_pos _
      let i := p.cursor % n
      let host := p.available.get ⟨i, Nat.mod_lt _ hn⟩
      let p1 : Pool B := { p with cursor := (p.cursor + 1) % n }
      if transport host.url then
        .ok (host.url, { p1 with available := p1.available.set i (Host.success ops host) })
      else
        let r := Host.fail ops host
        let p2 : Pool B :=
          { available := p1.available.eraseIdx i,
            disabled := (r.2, now + r.1) :: p1.disabled,
            cursor := p1.cursor }
        match fuel with
        | 0 => .error .allHostsFailed
        | fuel + 1 => Pool.dispatchAux ops transport now fuel p2

/-- Modelled from the spec: `reclaim()` scans `disabled` and moves back to
`available` every host whose scheduled re-admission time has passed,
leaving the others disabled and the cursor untouched. -/
def Pool.reclaim {B : Type} (now : Nat) (p : Pool B) : Pool B :=
  { available := p.available ++ (p.disabled.filter fun e => decide (e.2 ≤ now)).map Prod.fst,
    disabled := p.disabled.filter fun e => decide (now < e.2),
    cursor := p.cursor }

/-- Modelled from the spec: `dispatch` first runs `reclaim` lazily, right
before step 1 — so recovery does not depend on an external timer — and
seeds the remaining-attempts counter with the number of registered hosts,
so a request is attempted at most once per registered host before giving
up. -/
def Pool.dispatch {B : Type} (ops : BackoffOps B) (transport : String → Bool) (now : Nat)
    (p : Pool B) : Except DispatchError (String × Pool B) :=
  let q := Pool.reclaim now p
  Pool.dispatchAux ops transport now (q.available.length + q.disabled.length) q

/-- A sequence of `n` consecutive dispatch calls, collecting the urls of
the hosts each call selected; the sequence stops early if a dispatch
fails. -/
def Pool.dispatchSeq {B : Type} (ops : BackoffOps B) (transport : String → Bool) (now : Nat) :
    Nat → Pool B → List String × Pool B
  | 0, p => ([], p)
  | n + 1, p =>
    match Pool.dispatch ops transport now p with
    | .ok (u, p1) =>
      let r := Pool.dispatchSeq ops transport now n p1
      (u :: r.1, r.2)
    | .error _ => ([], p)

/-- The selection order the spec promises: starting from cursor `c`, the
`k` round-robin picks from `urls` are the entries at positions
`(c + i) % urls.length`. -/
def roundRobinList (urls : List String) (c : Nat) (k : Nat) : List String :=
  (List.range k).map fun i => urls.getD ((c + i) % urls.length) ""

/-- Applying `fail()` to the host named `u` exactly where it sits — in
whichever collection of the pool holds it — without the Pool taking any
transition of its own.  This is the frame in which the claim that `fail()`
never moves a host between collections is stated. -/
def Pool.failHostInPlace {B : Type} (ops : BackoffOps B) (p : Pool B) (u : String) : Pool B :=
  { p with
    available := p.available.map fun h => if h.url = u then (Host.fail ops h).2 else h,
    disabled := p.disabled.map fun e => (if e.1.url = u then (Host.fail ops e.1).2 else e.1, e.2) }

/-- One element of a response body's results array; its error field is a
string or absent. -/
structure ResultEntry where
  error : Option String
  deriving Repr, DecidableEq

/-- A defined response body as the callback sees it: an object whose
results field is either an array of entries or absent / not an array
(a body that is a plain string is modelled as a body with no results
array, which is how every guard in the source treats it). -/
structure ResponseBody where
  results : Option (List ResultEntry)
  deriving Repr, DecidableEq

/-- The HTTP response record; only its status code is consulted. -/
structure HttpResponse where
  statusCode : Nat
  deriving Repr, DecidableEq

/-- JS truthiness of the loop guard on an entry: the entry has an error
when its error field is present and is a non-empty string (the source
checks the field's truthiness and, redundantly, that it is not ''). -/
def ResultEntry.hasError (e : ResultEntry) : Bool :=
  match e.error with
  | some s => s ≠ ""
  | none => false

/-- From the source, the scanning loop of _parseCallback:
`for (var i = 0; i <= body.results.length; ++i)` with body
`if (body.results[i] && body.results[i].error && body.results[i].error !== '')
return callback(new Error(body.results[i].error))`.  The index really runs
up to the length inclusive; the access at the out-of-range index yields
undefined (here: none) and is absorbed by the truthiness guard. -/
def findErrorLoop (results : List ResultEntry) (i : Nat) : Option String :=
  if _h : i ≤ results.length then
    match results[i]? with
    | some e => if e.hasError then e.error else findErrorLoop results (i + 1)
    | none => findErrorLoop results (i + 1)
  else none
termination_by results.length + 1 - i
decreasing_by all_goals omega

/-- The loop started at index 0, as the source runs it. -/
def findResultsError (results : List ResultEntry) : Option String :=
  findErrorLoop results 0

/-- Scanning exactly the elements of the array for the first non-empty
error — the clean behaviour the loop is claimed to implement. -/
def firstErrorScan : List ResultEntry → Option String
  | [] => none
  | e :: rest => if e.hasError then e.error else firstErrorScan rest

/-- The ways the function returned by _parseCallback can report an error
to its callback. -/
inductive CallbackError
  | transport (e : String)
  | badStatus (message : String)
  | resultError (message : String)
  | undefinedBody
  deriving Repr, DecidableEq

/-- What the function returned by _parseCallback observably does (when a
callback was supplied): report an error, deliver (null, body.results), or
throw before ever invoking the callback. -/
inductive CallbackOutcome
  | threw
  | reportedError (e : CallbackError)
  | delivered (results : Option (List ResultEntry))
  deriving Repr, DecidableEq

/-- From the source, InfluxDB._parseCallback: the function it returns,
over a transport error (none = null), a response and a body (none =
undefined).  If err is truthy the error is passed through.  On a status
code outside [200, 300) the source builds `new Error(body.error || body)`;
when body is undefined that property access throws a TypeError before the
callback is invoked, which is modelled as the `threw` outcome.  Otherwise
the results array, when present, is scanned for a non-empty error; then an
undefined body is reported as an error, and in every remaining case
(null, body.results) is delivered. -/
def parseCallback (err : Option String) (res : HttpResponse) (body : Option ResponseBody) :
    CallbackOutcome :=
  match err with
  | some e => .reportedError (.transport e)
  | none =>
    if res.statusCode < 200 ∨ 300 ≤ res.statusCode then
      match body with
      | none => .threw
      | some _ => .reportedError (.badStatus "")
    else
      match body with
      | some b =>
        match b.results with
        | some rs =>
          match findResultsError rs with
          | some msg => .reportedError (.resultError msg)
          | none => .delivered b.results
        | none => .delivered none
      | none => .reportedError .undefinedBody

/-- The error condition exactly as the claim about _parseCallback states
it: the transport returned an error, or the status code is below 200 or
at/above 300, or some element of body.results carries a non-empty error
field, or the body is undefined. -/
def specReportsError (err : Option String) (res : HttpResponse)
    (body : Option ResponseBody) : Bool :=
  err.isSome || decide (res.statusCode < 200) || decide (300 ≤ res.statusCode) ||
    (match body with
     | some b =>
       match b.results with
       | some rs => rs.any ResultEntry.hasError
       | none => false
     | none => false) ||
    body.isNone

/-- A host descriptor as it appears in an options.hosts array; every field
may be absent (undefined). -/
structure HostDescriptor where
  host : Option String
  port : Option Nat
  protocol : Option String
  username : Option String
  password : Option String
  deriving Repr, DecidableEq

/-- The options object accepted by the InfluxDB constructor (the fields
the host-seeding path of the constructor consults); none = the key is
absent / undefined. -/
structure InfluxOptions where
  host : Option String
  port : Option Nat
  protocol : Option String
  username : Option String
  password : Option String
  hosts : Option (List HostDescriptor)
  deriving Repr, DecidableEq

/-- JS `a || b` on an optional string: an absent or empty string is falsy
and falls back to the default. -/
def jsOrString (v : Option String) (d : String) : String :=
  match v with
  | some s => if s = "" then d else s
  | none => d

/-- JS `a || b` on an optional number: absent or zero falls back to the
default. -/
def jsOrNat (v : Option Nat) (d : Nat) : Nat :=
  match v with
  | some n => if n = 0 then d else n
  | none => d

/-- From the source, the host-seeding part of the InfluxDB constructor:
`_.defaults({}, options, defaultOptions)` fills the absent keys with
host 127.0.0.1, port 8086, protocol http, username root, password root
and hosts [].  If the (defaulted) hosts array is empty, the constructor
pushes `_.pick(options, ['username', 'password', 'protocol'])` — a
descriptor that carries no host and no port.  Each descriptor is then
registered via `addHost(host.host || defaultHost.host, host.port ||
defaultHost.port, host.protocol || defaultHost.protocol)`; the returned
list holds the (host, port, protocol) triples passed to addHost. -/
def registeredHosts (options : InfluxOptions) : List (String × Nat × String) :=
  let username := options.username.getD "root"
  let password := options.password.getD "root"
  let protocol := options.protocol.getD "http"
  let hosts0 := options.hosts.getD []
  let hosts :=
    if hosts0.length = 0 then
      [{ host := none, port := none, protocol := some protocol,
         username := some username, password := some password : HostDescriptor }]
    else hosts0
  hosts.map fun h =>
    (jsOrString h.host "127.0.0.1", jsOrNat h.port 8086, jsOrString h.protocol "http")

/-! ## Theorems -/

/-- C3: for the exponential backoff strategy, in any run of consecutive
next() calls with no intervening reset(), each returned delay is at least
the previous one and every returned delay is bounded by the configured
maximum; after a reset(), the next next() call returns the baseline delay
(the delay a freshly constructed strategy returns first).  The strategy
multiplier is at least one, as any escalating schedule requires. -/
theorem exponential_backoff_spec (s : ExponentialState) (hm : 1 ≤ s.opts.multiplier) :
    (∀ j k, j ≤ k → s.nthDelay j ≤ s.nthDelay k) ∧
    (∀ k, s.nthDelay k ≤ s.opts.maxDelay) ∧
    (ExponentialState.next (ExponentialState.reset s)).1
      = (ExponentialState.next (ExponentialState.initial s.opts)).1 := by
  refine ⟨?_, ?_, rfl⟩
  · intro j k hjk
    have hpow : s.opts.multiplier ^ (s.attempt + j) ≤ s.opts.multiplier ^ (s.attempt + k) :=
      Nat.pow_le_pow_right hm (by omega)
    exact min_le_min (Nat.mul_le_mul_left _ hpow) (le_refl _)
  · intro k
    exact min_le_right _ _

/-- A concrete exponential strategy state for evaluating claims: base
delay 100, multiplier 2, cap 1000, five failures already recorded. -/
def sampleExponential : ExponentialState :=
  { opts := { baseDelay := 100, multiplier := 2, maxDelay := 1000 }, attempt := 5 }

/-- Witness for C3 at the concrete state: monotone between the 1st and 4th
upcoming calls, capped at 1000, and reset restores the baseline 100. -/
theorem exponential_backoff_witness :
    sampleExponential.nthDelay 1 ≤ sampleExponential.nthDelay 4 ∧
    sampleExponential.nthDelay 9 ≤ 1000 ∧
    (ExponentialState.next (ExponentialState.reset sampleExponential)).1 = 100 :=
  ⟨(exponential_backoff_spec sampleExponential (by decide)).1 1 4 (by decide),
   (exponential_backoff_spec sampleExponential (by decide)).2.1 9,
   ((exponential_backoff_spec sampleExponential (by decide)).2.2).trans (by decide)⟩

/-- C4: success() replaces the host's backoff state with the initial state
of its strategy parameters, so the next fail() — which returns the next()
delay — yields the baseline delay min(baseDelay, maxDelay) again. -/
theorem host_success_resets (h : Host ExponentialState) :
    (Host.success exponentialOps h).backoff = ExponentialState.initial h.backoff.opts ∧
    (Host.fail exponentialOps (Host.success exponentialOps h)).1
      = min h.backoff.opts.baseDelay h.backoff.opts.maxDelay := by
  refine ⟨rfl, ?_⟩
  simp [Host.fail, Host.success, exponentialOps, ExponentialState.next,
    ExponentialState.reset, ExponentialState.delay]

/-- C5: fail() returns exactly the delay the backoff's next() computes on
the current state, its state effect is exactly the advanced backoff state,
and nothing else of the host changes. -/
theorem host_fail_spec {B : Type} (ops : BackoffOps B) (h : Host B) :
    (Host.fail ops h).1 = (ops.next h.backoff).1 ∧
    (Host.fail ops h).2.backoff = (ops.next h.backoff).2 ∧
    (Host.fail ops h).2.url = h.url :=
  ⟨rfl, rfl, rfl⟩

/-- C6: running fail() on a host in place, wherever it sits in the pool,
changes neither which hosts are in `available`, nor which hosts (with
which re-admission times) are in `disabled`, nor the cursor: membership
transitions belong to the Pool alone. -/
theorem host_fail_frame {B : Type} (ops : BackoffOps B) (p : Pool B) (u : String) :
    (p.failHostInPlace ops u).available.map Host.url = p.available.map Host.url ∧
    (p.failHostInPlace ops u).disabled.map (fun e => (e.1.url, e.2))
      = p.disabled.map (fun e => (e.1.url, e.2)) ∧
    (p.failHostInPlace ops u).cursor = p.cursor := by
  refine ⟨?_, ?_, rfl⟩
  · simp only [Pool.failHostInPlace, List.map_map]
    apply List.map_congr_left
    intro h _
    by_cases hu : h.url = u <;> simp [hu, Host.fail, Function.comp]
  · simp only [Pool.failHostInPlace, List.map_map]
    apply List.map_congr_left
    intro e _
    by_cases hu : e.1.url = u <;> simp [hu, Host.fail, Function.comp]

/-- C7: the url set at construction is never changed: both fail() and
success() leave it exactly as constructed. -/
theorem host_url_immutable {B : Type} (ops : BackoffOps B) (h : Host B) :
    (Host.fail ops h).2.url = h.url ∧ (Host.success ops h).url = h.url :=
  ⟨rfl, rfl⟩

/-- Helper: reclaiming a pool with nothing disabled changes nothing. -/
theorem reclaim_of_disabled_nil {B : Type} (now : Nat) (p : Pool B) (hd : p.disabled = []) :
    Pool.reclaim now p = p := by
  obtain ⟨av, d, c⟩ := p
  simp only at hd
  subst hd
  simp [Pool.reclaim]

/-- Helper: the dispatch loop on an empty `available` collection reports
NoHostsAvailableError whatever the remaining-attempts counter holds. -/
theorem dispatchAux_nil {B : Type} (ops : BackoffOps B) (transport : String → Bool)
    (now fuel : Nat) (q : Pool B) (h : q.available = []) :
    Pool.dispatchAux ops transport now fuel q = .error .noHostsAvailable := by
  obtain ⟨av, d, c⟩ := q
  simp only at h
  subst h
  rw [Pool.dispatchAux]

/-- Helper: when every host is healthy (the transport always succeeds),
nothing is disabled and some host is available, a dispatch returns the url
at the cursor position and a pool with the same urls in `available`,
nothing disabled, and the cursor advanced by one modulo the size. -/
theorem dispatch_step_all_ok {B : Type} (ops : BackoffOps B) (now : Nat) (p : Pool B)
    (hne : p.available ≠ []) (hd : p.disabled = []) :
    ∃ p1 : Pool B,
      Pool.dispatch ops (fun _ => true) now p
        = .ok ((p.available.map Host.url).getD (p.cursor % p.available.length) "", p1) ∧
      p1.available.map Host.url = p.available.map Host.url ∧
      p1.available.length = p.available.length ∧
      p1.cursor = (p.cursor + 1) % p.available.length ∧
      p1.disabled = [] := by
  obtain ⟨av, d, c⟩ := p
  simp only at hd
  subst hd
  cases av with
  | nil => exact absurd rfl hne
  | cons x xs =>
    have hlen : 0 < (x :: xs).length := Nat.succ_pos _
    have hidx : c % (x :: xs).length < (x :: xs).length := Nat.mod_lt _ hlen
    have hget : ((x :: xs).map Host.url).getD (c % (x :: xs).length) ""
        = Host.url ((x :: xs).get ⟨c % (x :: xs).length, hidx⟩) := by
      rw [List.getD_eq_getElem _ _ (by simpa using hidx)]
      rw [List.getElem_map]
      rfl
    refine ⟨{ available := (x :: xs).set (c % (x :: xs).length)
                (Host.success ops ((x :: xs).get ⟨c % (x :: xs).length, hidx⟩)),
              disabled := [],
              cursor := (c + 1) % (x :: xs).length }, ?_, ?_, ?_, ?_, rfl⟩
    · unfold Pool.dispatch
      rw [reclaim_of_disabled_nil now _ rfl]
      rw [Pool.dispatchAux]
      simp only [if_true]
      rw [hget]
    · show ((x :: xs).set (c % (x :: xs).length) _).map Host.url = (x :: xs).map Host.url
      rw [List.map_set]
      have : Host.url (Host.success ops ((x :: xs).get ⟨c % (x :: xs).length, hidx⟩))
          = ((x :: xs).map Host.url).getD (c % (x :: xs).length) "" := by
        rw [hget]; rfl
      rw [this, List.getD_eq_getElem _ _ (by simpa using hidx)]
      apply List.ext_getElem
      · simp
      · intro n h1 h2
        rw [List.getElem_set]
        split
        · next heq => subst heq; rfl
        · rfl
    · simp
    · rfl

/-- Helper: peeling one pick off a round-robin selection. -/
theorem roundRobinList_succ (urls : List String) (c k : Nat) :
    roundRobinList urls c (k + 1)
      = urls.getD (c % urls.length) "" :: roundRobinList urls ((c + 1) % urls.length) k := by
  unfold roundRobinList
  rw [List.range_succ_eq_map, List.map_cons, List.map_map]
  refine congrArg₂ _ (by simp) ?_
  apply List.map_congr_left
  intro i _
  simp only [Function.comp]
  have h1 : ((c + 1) % urls.length + i) % urls.length = (c + 1 + i) % urls.length :=
    Nat.mod_add_mod _ _ _
  have h2 : c + (i + 1) = c + 1 + i := by omega
  rw [h1, h2]

/-- Helper: with every host healthy and nothing disabled, a sequence of
dispatch calls selects urls in round-robin order starting at the cursor. -/
theorem dispatchSeq_all_ok {B : Type} (ops : BackoffOps B) (now : Nat) :
    ∀ (N : Nat) (p : Pool B), p.available ≠ [] → p.disabled = [] →
      (Pool.dispatchSeq ops (fun _ => true) now N p).1
        = roundRobinList (p.available.map Host.url) p.cursor N := by
  intro N
  induction N with
  | zero => intro p _ _; rfl
  | succ n ih =>
    intro p hp hpd
    obtain ⟨p1, hd, hmap, hlen, hcur, hdis⟩ := dispatch_step_all_ok ops now p hp hpd
    have hp1 : p1.available ≠ [] := by
      intro hnil
      rw [hnil] at hmap
      exact hp (List.map_eq_nil_iff.mp hmap.symm)
    rw [Pool.dispatchSeq, hd]
    simp only
    rw [ih p1 hp1 hdis, hmap, hcur, roundRobinList_succ]
    have hlen2 : (p.available.map Host.url).length = p.available.length := List.length_map _ _
    rw [hlen2]

/-- Helper: a round-robin selection of at most `urls.length` picks from a
duplicate-free url list is itself duplicate-free. -/
theorem roundRobinList_nodup (urls : List String) (c N : Nat) (hnd : urls.Nodup)
    (hN : N ≤ urls.length) : (roundRobinList urls c N).Nodup := by
  unfold roundRobinList
  apply (List.nodup_range N).map_on
  intro i hi j hj hf
  rw [List.mem_range] at hi hj
  have hiN : i < urls.length := Nat.lt_of_lt_of_le hi hN
  have hjN : j < urls.length := Nat.lt_of_lt_of_le hj hN
  have hlen0 : 0 < urls.length := Nat.lt_of_le_of_lt (Nat.zero_le i) hiN
  have hi2 : (c + i) % urls.length < urls.length := Nat.mod_lt _ hlen0
  have hj2 : (c + j) % urls.length < urls.length := Nat.mod_lt _ hlen0
  rw [List.getD_eq_getElem _ _ hi2, List.getD_eq_getElem _ _ hj2] at hf
  have heq : (c + i) % urls.length = (c + j) % urls.length := (hnd.getElem_inj_iff).mp hf
  have hmod : Nat.ModEq urls.length (c + i) (c + j) := heq
  exact (Nat.ModEq.add_left_cancel' c hmod).eq_of_lt_of_lt hiN hjN

/-- C1: against a pool of M healthy hosts — all-available (nothing
disabled, so the pre-dispatch reclaim is a no-op) and all-distinct — every
sequence of N ≤ M dispatch calls selects hosts in round-robin order — the
urls at positions cursor, cursor+1, ... reduced modulo the size of
`available` — and the N selected hosts are pairwise distinct. -/
theorem dispatch_round_robin {B : Type} (ops : BackoffOps B) (now : Nat) (p : Pool B)
    (hd : p.disabled = []) (hnd : (p.available.map Host.url).Nodup) (N : Nat)
    (hN : N ≤ p.available.length) :
    (Pool.dispatchSeq ops (fun _ => true) now N p).1
      = roundRobinList (p.available.map Host.url) p.cursor N ∧
    (Pool.dispatchSeq ops (fun _ => true) now N p).1.Nodup := by
  have hmain : (Pool.dispatchSeq ops (fun _ => true) now N p).1
      = roundRobinList (p.available.map Host.url) p.cursor N := by
    cases N with
    | zero => rfl
    | succ n =>
      refine dispatchSeq_all_ok ops now (n + 1) p ?_ hd
      intro hnil
      rw [hnil] at hN
      exact absurd hN (by simp)
  refine ⟨hmain, ?_⟩
  rw [hmain]
  exact roundRobinList_nodup _ _ _ hnd (by simpa using hN)

/-- A concrete healthy three-host pool with the cursor already at 1. -/
def samplePool : Pool ExponentialState :=
  { available := [{ url := "a", backoff := sampleExponential },
                  { url := "b", backoff := sampleExponential },
                  { url := "c", backoff := sampleExponential }],
    disabled := [],
    cursor := 1 }

/-- Witness for C1: three dispatches against the healthy three-host pool
select b, c, a — round-robin from the cursor — with no repetition. -/
theorem dispatch_round_robin_witness :
    (Pool.dispatchSeq exponentialOps (fun _ => true) 0 3 samplePool).1 = ["b", "c", "a"] ∧
    (Pool.dispatchSeq exponentialOps (fun _ => true) 0 3 samplePool).1.Nodup :=
  ⟨(dispatch_round_robin exponentialOps 0 samplePool rfl (by decide) 3 (by decide)).1.trans
      (by decide),
   (dispatch_round_robin exponentialOps 0 samplePool rfl (by decide) 3 (by decide)).2⟩

/-- A pool whose single host is disabled with re-admission scheduled at
time 5: `available` is empty. -/
def emptyAvailablePool : Pool ExponentialState :=
  { available := [],
    disabled := [({ url := "a", backoff := sampleExponential }, 5)],
    cursor := 0 }

/-- C2 counterexample: a pool state with `available` empty on which a
dispatch does NOT fail with NoHostsAvailableError — dispatched at time 99,
past the disabled host's scheduled re-admission time 5, the reclaim the
spec runs right before step 1 re-admits the host and the dispatch
succeeds. -/
theorem dispatch_reclaim_counterexample :
    emptyAvailablePool.available = [] ∧
    Pool.dispatch exponentialOps (fun _ => true) 99 emptyAvailablePool
      = Except.ok ("a",
          ({ available := [{ url := "a",
                             backoff := { opts := sampleExponential.opts, attempt := 0 } }],
             disabled := [],
             cursor := 0 } : Pool ExponentialState)) ∧
    Pool.dispatch exponentialOps (fun _ => true) 99 emptyAvailablePool
      ≠ Except.error DispatchError.noHostsAvailable := by
  refine ⟨rfl, rfl, ?_⟩
  intro hcontra
  rw [show Pool.dispatch exponentialOps (fun _ => true) 99 emptyAvailablePool
      = Except.ok ("a",
          ({ available := [{ url := "a",
                             backoff := { opts := sampleExponential.opts, attempt := 0 } }],
             disabled := [],
             cursor := 0 } : Pool ExponentialState)) from rfl] at hcontra
  exact Except.noConfusion hcontra

/-- C2 (amended): whenever `available` is empty and no disabled host's
scheduled re-admission time has passed yet — i.e. `available` is still
empty after the reclaim that runs right before step 1 — dispatch fails at
once with NoHostsAvailableError, whatever the transport would answer and
without waiting for any disabled host to recover. -/
theorem dispatch_no_hosts {B : Type} (ops : BackoffOps B) (transport : String → Bool)
    (now : Nat) (p : Pool B) (h : p.available = [])
    (hd : ∀ e ∈ p.disabled, now < e.2) :
    Pool.dispatch ops transport now p = .error .noHostsAvailable := by
  have hf : (p.disabled.filter fun e => decide (e.2 ≤ now)) = [] := by
    rw [List.filter_eq_nil_iff]
    intro e he
    have := hd e he
    simp
    omega
  have hq : (Pool.reclaim now p).available = [] := by
    simp [Pool.reclaim, h, hf]
  exact dispatchAux_nil _ _ _ _ _ hq

/-- Witness for C2: at time 2, before the disabled host's scheduled
re-admission time 5, dispatch on the empty-available pool fails
immediately even though the transport would succeed. -/
theorem dispatch_no_hosts_witness :
    Pool.dispatch exponentialOps (fun _ => true) 2 emptyAvailablePool
      = .error .noHostsAvailable :=
  dispatch_no_hosts exponentialOps (fun _ => true) 2 emptyAvailablePool rfl
    (by intro e he; simp [emptyAvailablePool] at he; subst he; decide)

/-- Helper: from any start index, the source's inclusive-bound loop
behaves as a clean scan of the remaining elements. -/
theorem findErrorLoop_eq_scan (rs : List ResultEntry) (i : Nat) :
    findErrorLoop rs i = firstErrorScan (rs.drop i) := by
  induction i using findErrorLoop.induct rs with
  | case1 x hx e hsome herr =>
    have hlt : x < rs.length := by
      rcases List.getElem?_eq_some.mp hsome with ⟨h, _⟩
      exact h
    rw [findErrorLoop, dif_pos hx, hsome]
    have hget : rs[x] = e := by
      rcases List.getElem?_eq_some.mp hsome with ⟨h, hh⟩
      exact hh
    rw [List.drop_eq_getElem_cons hlt, hget, firstErrorScan]
    simp [herr]
  | case2 x hx e hsome herr ih =>
    have hlt : x < rs.length := by
      rcases List.getElem?_eq_some.mp hsome with ⟨h, _⟩
      exact h
    rw [findErrorLoop, dif_pos hx, hsome]
    have hget : rs[x] = e := by
      rcases List.getElem?_eq_some.mp hsome with ⟨h, hh⟩
      exact hh
    rw [List.drop_eq_getElem_cons hlt, hget, firstErrorScan]
    simp only [herr, if_neg, Bool.false_eq_true, ite_false]
    exact ih
  | case3 x hx hnone ih =>
    have hxlen : rs.length ≤ x := List.getElem?_eq_none_iff.mp hnone
    rw [findErrorLoop, dif_pos hx, hnone]
    rw [ih, List.drop_eq_nil_of_le (by omega), List.drop_eq_nil_of_le (by omega)]
  | case4 x hx =>
    rw [findErrorLoop, dif_neg hx, List.drop_eq_nil_of_le (by omega)]
    rfl

/-- C9: the error-scanning loop of _parseCallback, whose index runs from 0
to body.results.length inclusive, equals a scan of exactly the elements of
the array for the first non-empty error — every access is the guarded
optional access `results[i]?`, and the access at index = length yields
none and is absorbed, so the off-by-one bound is harmless. -/
theorem results_loop_off_by_one_safe (rs : List ResultEntry) :
    findResultsError rs = firstErrorScan rs := by
  have h := findErrorLoop_eq_scan rs 0
  rwa [List.drop_zero] at h

/-- Helper: the loop guard is truthy exactly on a present, non-empty error
string. -/
theorem hasError_iff (e : ResultEntry) :
    e.hasError = true ↔ ∃ s, e.error = some s ∧ s ≠ "" := by
  unfold ResultEntry.hasError
  cases h : e.error with
  | none => simp
  | some s => simp

/-- Helper: the scan finds nothing exactly when no element has a
non-empty error. -/
theorem firstErrorScan_eq_none_iff (rs : List ResultEntry) :
    firstErrorScan rs = none ↔ rs.any ResultEntry.hasError = false := by
  induction rs with
  | nil => simp [firstErrorScan]
  | cons e rest ih =>
    by_cases he : e.hasError
    · obtain ⟨s, hs, _⟩ := (hasError_iff e).mp he
      simp [firstErrorScan, he, hs]
    · simp [firstErrorScan, he, ih]

/-- C8 counterexample: at the concrete outcome err = null, statusCode =
500, body = undefined, the claimed error condition holds (the status is
out of range and the body is undefined), yet the function reports no error
to the callback: evaluating `new Error(body.error || body)` on the
undefined body throws before the callback is ever invoked. -/
theorem parseCallback_claim_counterexample :
    specReportsError none { statusCode := 500 } none = true ∧
    parseCallback none { statusCode := 500 } none = CallbackOutcome.threw ∧
    ∀ e, parseCallback none { statusCode := 500 } none ≠ CallbackOutcome.reportedError e := by
  refine ⟨rfl, rfl, ?_⟩
  intro e h
  rw [show parseCallback none { statusCode := 500 } none = CallbackOutcome.threw from rfl] at h
  exact absurd h (by simp)

/-- C8 (amended): the callback produced by _parseCallback reports an error
exactly when the claimed condition holds — a transport error, a status
code below 200 or at/above 300, a results element with a non-empty error,
or an undefined body — EXCEPT in the one case of an out-of-range status
code with an undefined body, where it instead throws a TypeError while
building the error message and never invokes the callback; in every case
with no error condition it delivers (null, body.results). -/
theorem parseCallback_spec (err : Option String) (res : HttpResponse)
    (body : Option ResponseBody) :
    ((∃ e, parseCallback err res body = CallbackOutcome.reportedError e) ↔
      (specReportsError err res body = true ∧
        ¬(err = none ∧ (res.statusCode < 200 ∨ 300 ≤ res.statusCode) ∧ body = none))) ∧
    (parseCallback err res body = CallbackOutcome.delivered (body.bind ResponseBody.results) ↔
      specReportsError err res body = false) ∧
    (parseCallback err res body = CallbackOutcome.threw ↔
      (err = none ∧ (res.statusCode < 200 ∨ 300 ≤ res.statusCode) ∧ body = none)) := by
  cases err with
  | some e => simp [parseCallback, specReportsError]
  | none =>
    by_cases hs : res.statusCode < 200 ∨ 300 ≤ res.statusCode
    · cases body with
      | none => simp [parseCallback, specReportsError, hs]
      | some b =>
        simp [parseCallback, specReportsError, hs]
        omega
    · cases body with
      | none => simp [parseCallback, specReportsError, hs]
      | some b =>
        cases hr : b.results with
        | none =>
          simp [parseCallback, specReportsError, hs, hr]
          omega
        | some rs =>
          have hloop : findResultsError rs = firstErrorScan rs := by
            have h := findErrorLoop_eq_scan rs 0
            rwa [List.drop_zero] at h
          cases hscan : firstErrorScan rs with
          | some msg =>
            have hany : rs.any ResultEntry.hasError = true := by
              have hne : ¬rs.any ResultEntry.hasError = false := fun hf => by
                rw [(firstErrorScan_eq_none_iff rs).mpr hf] at hscan
                exact Option.noConfusion hscan
              simpa using hne
            simp [parseCallback, specReportsError, hs, hr, hloop, hscan, hany]
          | none =>
            have hany : rs.any ResultEntry.hasError = false :=
              (firstErrorScan_eq_none_iff rs).mp hscan
            simp [parseCallback, specReportsError, hs, hr, hloop, hscan, hany]
            omega

/-- C10: whenever the hosts list is absent or empty, the constructor
registers exactly one host, and its hostname and port are the defaults
127.0.0.1 and 8086 — regardless of any top-level host or port the caller
supplied — because the seeded descriptor picks only username, password and
protocol; the protocol is the (defaulted) top-level protocol, run through
the same JS truthiness fallback addHost applies. -/
theorem constructor_defaults_host (o : InfluxOptions)
    (h : o.hosts = none ∨ o.hosts = some []) :
    registeredHosts o
      = [("127.0.0.1", 8086, jsOrString (some (o.protocol.getD "http")) "http")] := by
  unfold registeredHosts
  rcases h with h | h <;> simp [h, jsOrNat, jsOrString]

/-- Options with a top-level host and port explicitly supplied and no
hosts array. -/
def sampleOptions : InfluxOptions :=
  { host := some "example.com", port := some 9999, protocol := some "https",
    username := some "admin", password := some "pw", hosts := none }

/-- Witness for C10: despite host example.com and port 9999 at top level,
the single registered host is 127.0.0.1:8086 (with the supplied
protocol). -/
theorem constructor_defaults_host_witness :
    registeredHosts sampleOptions = [("127.0.0.1", 8086, "https")] :=
  (constructor_defaults_host sampleOptions (Or.inl rfl)).trans (by decide)

end NodeInflux
